import Mathlib

/-!
Verification of the olmax training core against its specification.

The development shallowly embeds the Python sources:

* `src/src/model/reversible.py` — the reversible residual block's custom
  forward/backward pair (`reversible`, its inner `_fn` and `_grad`).
* `src/context.py` — `Context.add_to_prefix` / `Context.incremental_name`,
  with an explicit heap so that Python's reference aliasing of the
  `name_cache` dict under `copy.copy` is visible.
* `src/src/backend.py` — `get_param`'s store lookup/creation logic.
* `src/src/optimizer.py` — `norm` / `clip_norm` /
  `adaptive_gradient_clipping`, `get_current_lr`, and the `update` loop's
  treatment of optimizer-state gradient entries.
* `src/src/utils/checkpoint.py` — the `write` retry loop and `_overwrite`.

Tensors are modelled in exact arithmetic: the rail tensors of the
reversible stream as integers (their pointwise `+`/`-` is the only
structure the algebraic claims use), optimizer tensors as lists of reals
(leading-axis slices of flattened entries, so that both the global and the
per-slice L2 norms of the clipping code are expressible), and schedule
scalars as rationals.  Python dicts are association lists; a dict shared
by reference between two shallow-copied objects is a reference into an
explicit heap.
-/

/-! ## Reversible block (`src/src/model/reversible.py`)

`REVERSIBLE_CTX` is a 5-tuple `(params, x0, back_x0, x1, back_x1)`.  The
sub-computation `fn`, together with the naming machinery `base` wraps
around it, is a pure function of the parameter mapping and one rail
tensor; its vector-Jacobian product (`jax.vjp`'s pullback) is a second
function returning the parameter cotangents and the input cotangent. -/

/-- A rail tensor of the reversible stream, in exact arithmetic. -/
abbrev Tensor : Type := ℤ

/-- A parameter (or parameter-gradient) mapping: Python dict of name to
tensor, as an association list. -/
abbrev Params : Type := List (String × Tensor)

/-- `d.get(k, 0)` on a Python dict. -/
def getD0 (d : Params) (k : String) : Tensor :=
  (List.lookup k d).getD 0

/-- The 5-tuple `REVERSIBLE_CTX = (params, x0, back_x0, x1, back_x1)`. -/
abbrev RevCtx : Type := Params × Tensor × Tensor × Tensor × Tensor

/-- Line 42 of `reversible.py`:
`{k: d_params_old.get(k, 0) + d_params.get(k, 0) for k in d_params.keys()}` —
the comprehension ranges over the keys of the new (block-own) gradient
dict only. -/
def mergeGrads (d_params_old d_params : Params) : Params :=
  d_params.map (fun kv => (kv.1, getD0 d_params_old kv.1 + getD0 d_params kv.1))

/-- The running-path forward body of `_fn` (lines 45-46):
`out = base(params, x1) + x0; return (params, x1, x1, out, out)`. -/
def reversibleForward (f : Params → Tensor → Tensor) (src : RevCtx) : RevCtx :=
  let (params, x0, _back_x0, x1, _back_x1) := src
  let out := f params x1 + x0
  (params, x1, x1, out, out)

/-- The backward rule `_grad` (lines 38-43).  `f` is the primal of `base`
(the value `jax.vjp` returns alongside the pullback) and `fvjp` its
pullback: `fvjp params y0 dy1 = (d_params, dx0)`. -/
def reversibleBackward (f : Params → Tensor → Tensor)
    (fvjp : Params → Tensor → Tensor → Params × Tensor)
    (params : Params) (dy : RevCtx) : RevCtx :=
  let (d_params_old, dy0, y0, dy1, y1) := dy
  let x0 := f params y0
  let (d_params, dx0) := fvjp params y0 dy1
  let d_params := mergeGrads d_params_old d_params
  (d_params, dy1, y1 - x0, dx0 + dy0, y0)

/-- C1: Reversible round-trip.  For every sub-computation `f`, every vjp
oracle `fvjp`, and every input 5-tuple, the backward step applied to the
forward output's carried values (`y0` from the third slot, `y1` from the
fifth) reconstructs the forward input's `x0` exactly: the forward pass
produces `y0 = x1` and `y1 = f params x1 + x0`, and the backward step's
reconstructed activation `y1 - f params y0` (the third component of its
output) equals the original `x0`. -/
theorem reversible_roundtrip (f : Params → Tensor → Tensor)
    (fvjp : Params → Tensor → Tensor → Params × Tensor)
    (params : Params) (x0 back_x0 x1 back_x1 : Tensor)
    (d_params_old : Params) (dy0 dy1 : Tensor) :
    (reversibleBackward f fvjp params
        (d_params_old, dy0,
          (reversibleForward f (params, x0, back_x0, x1, back_x1)).2.2.1, dy1,
          (reversibleForward f (params, x0, back_x0, x1, back_x1)).2.2.2.2)).2.2.1
      = x0 := by
  simp [reversibleForward, reversibleBackward]

/-- C4: Reversible forward shape.  The running-path forward pass computes
`new_x1 = f params x1 + x0` and returns exactly the tuple
`(params, x1, x1, new_x1, new_x1)`: the two rails swap roles and each
rail's value is duplicated into its backup slot. -/
theorem reversible_forward_shape (f : Params → Tensor → Tensor)
    (params : Params) (x0 back_x0 x1 back_x1 : Tensor) :
    reversibleForward f (params, x0, back_x0, x1, back_x1)
      = (params, x1, x1, f params x1 + x0, f params x1 + x0) := by
  simp [reversibleForward]

/-- C3 counterexample: the claim says the merged parameter-gradient
mapping covers every key appearing in either the accumulator or the
block's own gradients, but line 42 iterates only over the block-own
gradient's keys.  With accumulator `{"a": 1}` and empty block-own
gradients, the backward step returns an empty gradient mapping: the key
`"a"` of the accumulator is dropped instead of being mapped to `1 + 0`. -/
theorem reversible_backward_drops_acc_key :
    (reversibleBackward (fun _ x => x) (fun _ _ _ => ([], 0)) []
        ([("a", (1 : Tensor))], 0, 0, 0, 0)).1 = []
      ∧ List.lookup "a" [("a", (1 : Tensor))] = some 1 := by
  constructor
  · rfl
  · rfl

/-- Looking a key up in a map whose entries keep their keys and whose new
values depend on the key alone finds the image of the key exactly when the
key is present. -/
theorem lookup_map_keyed (g : String → Tensor) (k : String) :
    ∀ l : List (String × Tensor),
      List.lookup k (l.map (fun kv => (kv.1, g kv.1)))
        = (List.lookup k l).map (fun _ => g k) := by
  intro l
  induction l with
  | nil => rfl
  | cons kv rest ih =>
      by_cases h : k = kv.1
      · simp [List.lookup, h]
      · simp only [List.map_cons, List.lookup,
          show (k == kv.1) = false by simpa using h, ih]

/-- `mergeGrads` is such a key-determined map. -/
theorem mergeGrads_eq_map_keyed (old new : Params) :
    mergeGrads old new
      = new.map (fun kv => (kv.1, getD0 old kv.1 + getD0 new kv.1)) := rfl

/-- C3 (amended): Reversible backward contract.  For every downstream
gradient tuple `(d_params_old, dy0, y0, dy1, y1)`, the backward step
returns `(d_params_sum, dy1, y1 - f y0, dx0 + dy0, y0)` where
`(d_params_new, dx0) = fvjp params y0 dy1` is the vector-Jacobian product
of the sub-computation at `y0` applied to `dy1`, and `d_params_sum` maps
every key of the block's own gradient mapping `d_params_new` to the sum of
the accumulator's value (missing keys treated as zero) and the block's own
value — keys present only in the accumulator are dropped. -/
theorem reversible_backward_contract (f : Params → Tensor → Tensor)
    (fvjp : Params → Tensor → Tensor → Params × Tensor)
    (params : Params) (d_params_old : Params) (dy0 y0 dy1 y1 : Tensor) :
    reversibleBackward f fvjp params (d_params_old, dy0, y0, dy1, y1)
        = (mergeGrads d_params_old (fvjp params y0 dy1).1, dy1,
            y1 - f params y0, (fvjp params y0 dy1).2 + dy0, y0)
      ∧ (∀ k v, List.lookup k (fvjp params y0 dy1).1 = some v →
          List.lookup k (mergeGrads d_params_old (fvjp params y0 dy1).1)
            = some (getD0 d_params_old k + getD0 (fvjp params y0 dy1).1 k))
      ∧ (∀ k, List.lookup k (fvjp params y0 dy1).1 = none →
          List.lookup k (mergeGrads d_params_old (fvjp params y0 dy1).1) = none) := by
  refine ⟨?_, ?_, ?_⟩
  · rcases hfv : fvjp params y0 dy1 with ⟨dp, dx0⟩
    simp [reversibleBackward, hfv]
  · intro k v hk
    rw [mergeGrads_eq_map_keyed,
      lookup_map_keyed (fun x => getD0 d_params_old x + getD0 (fvjp params y0 dy1).1 x) k,
      hk]
    rfl
  · intro k hk
    rw [mergeGrads_eq_map_keyed,
      lookup_map_keyed (fun x => getD0 d_params_old x + getD0 (fvjp params y0 dy1).1 x) k,
      hk]
    rfl

/-- Witness for C3's amended contract at a concrete input: the block-own
key `"b"` is merged with the accumulator's `"b"` entry. -/
theorem reversible_backward_contract_witness :
    List.lookup "b"
        (mergeGrads [("a", (1 : Tensor)), ("b", 2)]
          ((fun (_ : Params) (_ : Tensor) (_ : Tensor) =>
              (([("b", (5 : Tensor))], (0 : Tensor)))) [] (0 : Tensor) (0 : Tensor)).1)
      = some 7 := by
  have h := (reversible_backward_contract (fun _ x => x)
      (fun _ _ _ => ([("b", (5 : Tensor))], 0)) []
      [("a", (1 : Tensor)), ("b", 2)] 0 0 0 0).2.1 "b" 5 (by rfl)
  simpa [getD0] using h

/-! ## Context naming (`src/context.py`)

`Context.add_to_prefix` does `new = copy.copy(self)`: a *shallow* copy,
so `new.name_cache` is the very same dict object as `self.name_cache`.
The model makes that aliasing explicit: a `NameHeap` maps reference ids to
dict contents, and a context holds a reference id into it.  Mutating the
dict through any context holding the reference is visible through all of
them. -/

/-- The `name_cache` dict: base name to last-used integer suffix. -/
abbrev NameCache : Type := List (String × Int)

/-- In-place dict write `cache[name] = v` for a key already present. -/
def cacheSet (c : NameCache) (name : String) (v : Int) : NameCache :=
  c.map (fun kv => if kv.1 = name then (name, v) else kv)

/-- `Context.incremental_name` (lines 126-130): create the counter at `-1`
when the name is new, bump it in place, and return `f'{name}:{counter}'`. -/
def incremental_name (c : NameCache) (name : String) : NameCache × String :=
  let c := if List.lookup name c = none then (name, (-1 : Int)) :: c else c
  let v := ((List.lookup name c).getD (-1)) + 1
  (cacheSet c name v, name ++ ":" ++ toString v)

/-- Heap of live `name_cache` dict objects, addressed by reference id. -/
abbrev NameHeap : Type := ℕ → NameCache

/-- Overwrite the dict object behind reference `r`. -/
def heapSet (h : NameHeap) (r : ℕ) (c : NameCache) : NameHeap :=
  fun s => if s = r then c else h s

/-- The slice of `Context` that `add_to_prefix` touches: the string prefix
(an owned immutable string) and the reference to the `name_cache` dict
(shared between the original and every `copy.copy`). -/
structure NameCtx where
  globalPrefix : String
  nameCacheRef : ℕ

/-- `Context.add_to_prefix` (lines 119-124).  `copy.copy(self)` keeps the
`name_cache` reference; with `count` set, `self.incremental_name` mutates
that shared dict and the copy's prefix gains `/{name}:{counter}`. -/
def addToPrefix (h : NameHeap) (c : NameCtx) (appended : String) (count : Bool) :
    NameHeap × NameCtx :=
  if count then
    let p := incremental_name (h c.nameCacheRef) appended
    (heapSet h c.nameCacheRef p.1,
      { globalPrefix := c.globalPrefix ++ "/" ++ p.2,
        nameCacheRef := c.nameCacheRef })
  else
    (h, { globalPrefix := c.globalPrefix ++ "/" ++ appended,
          nameCacheRef := c.nameCacheRef })

/-- On the counting path, the returned heap has the caller's cache
reference overwritten with the bumped cache. -/
theorem addToPrefix_true_heap (h : NameHeap) (c : NameCtx) (appended : String) :
    (addToPrefix h c appended true).1
      = heapSet h c.nameCacheRef
          (incremental_name (h c.nameCacheRef) appended).1 := rfl

/-- Reading back the reference just overwritten. -/
theorem heapSet_self (h : NameHeap) (r : ℕ) (c : NameCache) :
    heapSet h r c r = c := by
  simp [heapSet]

/-- Mapping over the entries of an association list without touching the
keys commutes with lookup. -/
theorem lookup_map_entrywise {α β : Type} (f : String → α → β) (k : String) :
    ∀ l : List (String × α),
      List.lookup k (l.map (fun kv => (kv.1, f kv.1 kv.2)))
        = (List.lookup k l).map (f k) := by
  intro l
  induction l with
  | nil => rfl
  | cons kv rest ih =>
      obtain ⟨k1, v1⟩ := kv
      by_cases h : k = k1
      · simp [List.lookup, h]
      · have hne : (k == k1) = false := by simpa using h
        simp only [List.map_cons, List.lookup, hne, ih]

/-- The in-place dict write, entry by entry. -/
theorem cacheSet_eq_entrywise (c : NameCache) (n : String) (v : Int) :
    cacheSet c n v = c.map (fun kv => (kv.1, if kv.1 = n then v else kv.2)) := by
  unfold cacheSet
  congr 1
  funext kv
  by_cases h : kv.1 = n
  · simp [h]
  · simp [h]

/-- Writing an existing key in place changes exactly what a lookup of that
key finds. -/
theorem lookup_cacheSet_self (n : String) :
    ∀ (c : NameCache) (v : Int), (List.lookup n c).isSome = true →
      List.lookup n (cacheSet c n v) = some v := by
  intro c v hsome
  rw [cacheSet_eq_entrywise, lookup_map_entrywise (fun k w => if k = n then v else w) n]
  cases hl : List.lookup n c with
  | none => rw [hl] at hsome; simp at hsome
  | some w => simp

/-- After `incremental_name`, the cache holds the bumped counter for the
name, and the returned suffixed string carries that counter. -/
theorem incremental_name_spec (c : NameCache) (n : String) :
    List.lookup n (incremental_name c n).1
        = some (((List.lookup n c).getD (-1)) + 1)
      ∧ (incremental_name c n).2
        = n ++ ":" ++ toString (((List.lookup n c).getD (-1)) + 1) := by
  cases hl : List.lookup n c with
  | none =>
      have hgrown : List.lookup n ((n, (-1 : Int)) :: c) = some (-1) := by
        simp [List.lookup]
      constructor
      · show List.lookup n
            (cacheSet (if List.lookup n c = none then (n, (-1 : Int)) :: c else c) n
              (((List.lookup n
                  (if List.lookup n c = none then (n, (-1 : Int)) :: c else c)).getD
                (-1)) + 1))
          = _
        rw [if_pos hl, hgrown, lookup_cacheSet_self n _ _ (by simp [hgrown])]
        simp
      · show n ++ ":" ++ toString
            (((List.lookup n
                (if List.lookup n c = none then (n, (-1 : Int)) :: c else c)).getD
              (-1)) + 1) = _
        rw [if_pos hl, hgrown]
        simp
  | some v =>
      have hne : ¬ List.lookup n c = none := by simp [hl]
      constructor
      · show List.lookup n
            (cacheSet (if List.lookup n c = none then (n, (-1 : Int)) :: c else c) n
              (((List.lookup n
                  (if List.lookup n c = none then (n, (-1 : Int)) :: c else c)).getD
                (-1)) + 1))
          = _
        rw [if_neg hne, hl, lookup_cacheSet_self n _ _ (by simp [hl])]
      · show n ++ ":" ++ toString
            (((List.lookup n
                (if List.lookup n c = none then (n, (-1 : Int)) :: c else c)).getD
              (-1)) + 1) = _
        rw [if_neg hne, hl]

/-- C2 counterexample: the claim says a counter bumped by registering a
base name in one sibling branch is invisible in a sibling created before
the bump, because `add_to_prefix` gives the copy an independent name-cache
snapshot.  Concretely: from a fresh context, derive siblings via
`add_to_prefix "a"` and `add_to_prefix "b"`, then register `"n"` through
the first sibling.  The second sibling holds the same `name_cache`
reference as the parent, and the bumped counter `"n" ↦ 0` is visible
through it — not invisible. -/
theorem add_to_prefix_sibling_bump_visible :
    (addToPrefix ((addToPrefix (fun _ => []) ⟨"", 0⟩ "a" true).1) ⟨"", 0⟩
        "b" true).2.nameCacheRef = (0 : ℕ)
      ∧ List.lookup "n"
          ((addToPrefix
              ((addToPrefix ((addToPrefix (fun _ => []) ⟨"", 0⟩ "a" true).1)
                ⟨"", 0⟩ "b" true).1)
              ((addToPrefix (fun _ => []) ⟨"", 0⟩ "a" true).2) "n" true).1
            ((addToPrefix ((addToPrefix (fun _ => []) ⟨"", 0⟩ "a" true).1)
                ⟨"", 0⟩ "b" true).2.nameCacheRef))
        = some 0 := by
  constructor
  · rfl
  · rfl

/-- C2 (amended): Sibling naming aliasing.  `add_to_prefix` returns a
shallow copy sharing the caller's `name_cache` dict by reference, so two
sibling contexts obtained by independent `add_to_prefix` calls hold the
same cache reference as the parent, and a counter bumped by registering a
base name through one sibling is visible through the other: the second
sibling reads the bumped value `(previous counter) + 1`.  (This sharing is
what keeps suffixes for one base name distinct across sibling scopes.) -/
theorem add_to_prefix_siblings_share_cache (h : NameHeap) (c : NameCtx)
    (a b n : String) :
    (addToPrefix h c a true).2.nameCacheRef = c.nameCacheRef
      ∧ (addToPrefix (addToPrefix h c a true).1 c b true).2.nameCacheRef
          = c.nameCacheRef
      ∧ List.lookup n
          ((addToPrefix (addToPrefix (addToPrefix h c a true).1 c b true).1
              (addToPrefix h c a true).2 n true).1
            ((addToPrefix (addToPrefix h c a true).1 c b true).2.nameCacheRef))
        = some
            (((List.lookup n
                ((addToPrefix (addToPrefix h c a true).1 c b true).1
                  c.nameCacheRef)).getD (-1)) + 1) := by
  have e1 : (addToPrefix h c a true).2.nameCacheRef = c.nameCacheRef := rfl
  have e2 : (addToPrefix (addToPrefix h c a true).1 c b true).2.nameCacheRef
      = c.nameCacheRef := rfl
  refine ⟨e1, e2, ?_⟩
  rw [addToPrefix_true_heap, e1, e2, heapSet_self]
  exact (incremental_name_spec _ n).1

/-! ## Checkpoint manager (`src/src/utils/checkpoint.py`)

`write` retries an upload a fixed number of times; `_overwrite` merges a
loaded checkpoint dict into the live parameter dict.  The upload attempts
are modelled by an oracle giving each attempt's outcome. -/

/-- Line 25. -/
def UPLOAD_RETRIES : ℕ := 8

/-- The retry loop of `write` (lines 33-43): `attempt i` is the outcome of
the `i`-th upload attempt; the loop body tries, returns on success, and
only prints on failure.  The result is the number of attempts performed
and whether an attempt succeeded; `false` stands for the terminal
`raise Exception("save failed")`. -/
def writeLoop (attempt : ℕ → Bool) (i : ℕ) : ℕ → ℕ × Bool
  | 0 => (i, false)
  | Nat.succ fuel => if attempt i then (i + 1, true) else writeLoop attempt (i + 1) fuel

/-- `write` runs the retry loop `UPLOAD_RETRIES` times from attempt 0. -/
def write (attempt : ℕ → Bool) : ℕ × Bool :=
  writeLoop attempt 0 UPLOAD_RETRIES

/-- The loop performs at most `fuel` further attempts. -/
theorem writeLoop_attempts_le (attempt : ℕ → Bool) :
    ∀ (fuel i : ℕ), (writeLoop attempt i fuel).1 ≤ i + fuel := by
  intro fuel
  induction fuel with
  | zero => intro i; simp [writeLoop]
  | succ fuel ih =>
      intro i
      by_cases h : attempt i = true
      · simp [writeLoop, h]
      · have hstep : writeLoop attempt i (fuel + 1) = writeLoop attempt (i + 1) fuel := by
          simp [writeLoop, h]
        rw [hstep]
        have := ih (i + 1)
        omega

/-- The loop fails exactly when every attempt in its window fails. -/
theorem writeLoop_false_iff (attempt : ℕ → Bool) :
    ∀ (fuel i : ℕ),
      (writeLoop attempt i fuel).2 = false
        ↔ ∀ j, i ≤ j → j < i + fuel → attempt j = false := by
  intro fuel
  induction fuel with
  | zero =>
      intro i
      constructor
      · intro _ j hj hj2
        omega
      · intro _
        simp [writeLoop]
  | succ fuel ih =>
      intro i
      by_cases h : attempt i = true
      · simp only [writeLoop, h, if_pos rfl]
        constructor
        · intro hfalse
          simp at hfalse
        · intro hall
          have := hall i (le_refl i) (by omega)
          rw [h] at this
          simp at this
      · have hstep : writeLoop attempt i (fuel + 1) = writeLoop attempt (i + 1) fuel := by
          simp [writeLoop, h]
        rw [hstep, ih (i + 1)]
        constructor
        · intro hall j hj hj2
          by_cases hji : j = i
          · subst hji
            simpa using h
          · exact hall j (by omega) (by omega)
        · intro hall j hj hj2
          exact hall j (by omega) (by omega)

/-- The loop stops right after the first successful attempt. -/
theorem writeLoop_first_success (attempt : ℕ → Bool) :
    ∀ (fuel i k : ℕ), i ≤ k → k < i + fuel → attempt k = true →
      (∀ j, i ≤ j → j < k → attempt j = false) →
      writeLoop attempt i fuel = (k + 1, true) := by
  intro fuel
  induction fuel with
  | zero =>
      intro i k h1 h2
      omega
  | succ fuel ih =>
      intro i k h1 h2 hk hprev
      by_cases hik : i = k
      · subst hik
        simp [writeLoop, hk]
      · have hfail : attempt i = false := hprev i (le_refl i) (by omega)
        have hstep : writeLoop attempt i (fuel + 1) = writeLoop attempt (i + 1) fuel := by
          simp [writeLoop, hfail]
        rw [hstep]
        exact ih (i + 1) k (by omega) (by omega) hk
          (fun j hj hj2 => hprev j (by omega) hj2)

/-- C8: Checkpoint upload retry.  For every sequence of upload-attempt
outcomes, `write` performs at most `UPLOAD_RETRIES = 8` attempts; if the
first success is attempt `i < 8` it returns right after it (having
performed exactly `i + 1` attempts, none further) without raising; and it
raises the fatal exception if and only if all 8 attempts fail. -/
theorem write_retry_contract (attempt : ℕ → Bool) :
    (write attempt).1 ≤ UPLOAD_RETRIES
      ∧ ((write attempt).2 = false ↔ ∀ i, i < UPLOAD_RETRIES → attempt i = false)
      ∧ (∀ i, i < UPLOAD_RETRIES → attempt i = true →
          (∀ j, j < i → attempt j = false) → write attempt = (i + 1, true)) := by
  refine ⟨?_, ?_, ?_⟩
  · simpa using writeLoop_attempts_le attempt UPLOAD_RETRIES 0
  · rw [write, writeLoop_false_iff attempt UPLOAD_RETRIES 0]
    constructor
    · intro hall i hi
      exact hall i (Nat.zero_le i) (by omega)
    · intro hall j _ hj
      exact hall j (by omega)
  · intro i hi hsucc hprev
    exact writeLoop_first_success attempt UPLOAD_RETRIES 0 i (Nat.zero_le i)
      (by omega) hsucc (fun j _ hj => hprev j hj)

/-- Witness for C8 at a concrete outcome sequence: attempts 0 and 1 fail,
attempt 2 succeeds, so `write` performs exactly 3 attempts and succeeds. -/
theorem write_retry_contract_witness :
    write (fun i => decide (i = 2)) = (3, true) :=
  (write_retry_contract (fun i => decide (i = 2))).2.2 2 (by decide) (by decide)
    (fun j hj => by interval_cases j <;> decide)

/-- `_overwrite` (lines 126-138): merging a loaded checkpoint dict `new`
into the live dict `old`.  An empty `old` imports every checkpoint entry;
otherwise each existing key is overwritten with the checkpoint value when
the checkpoint has one and kept otherwise (key mismatches are only
printed, never raised). -/
def overwriteDict {α : Type} (new old : List (String × α)) : List (String × α) :=
  if old.isEmpty then new
  else old.map (fun kv =>
    match List.lookup kv.1 new with
    | some v => (kv.1, v)
    | none => kv)

/-- On a non-empty live dict, `_overwrite` rewrites entries in place. -/
theorem overwriteDict_eq_entrywise {α : Type} (new old : List (String × α))
    (h : ¬ old = []) :
    overwriteDict new old
      = old.map (fun kv =>
          (kv.1, match List.lookup kv.1 new with | some v => v | none => kv.2)) := by
  unfold overwriteDict
  rw [if_neg (by simpa [List.isEmpty_iff] using h)]
  congr 1
  funext kv
  cases List.lookup kv.1 new <;> rfl

/-- A lookup through the non-empty-case merge. -/
theorem lookup_overwriteDict {α : Type} (new old : List (String × α))
    (h : ¬ old = []) (k : String) :
    List.lookup k (overwriteDict new old)
      = (List.lookup k old).map (fun w =>
          match List.lookup k new with | some v => v | none => w) := by
  rw [overwriteDict_eq_entrywise new old h]
  exact lookup_map_entrywise
    (fun k1 w1 => match List.lookup k1 new with | some v1 => v1 | none => w1) k old

/-- C9: Checkpoint load merge.  `_overwrite` never raises on key
mismatches (it is a total merge); if the live dict `old` is empty, every
checkpoint entry is imported; otherwise the live dict's key sequence is
unchanged, every key present in both dicts takes the checkpoint value, and
every key present only in the live dict keeps its previous value. -/
theorem overwrite_merge_contract {α : Type} (new old : List (String × α)) :
    (old = [] → overwriteDict new old = new)
      ∧ (¬ old = [] →
          (overwriteDict new old).map Prod.fst = old.map Prod.fst
            ∧ (∀ k w v, List.lookup k old = some w → List.lookup k new = some v →
                List.lookup k (overwriteDict new old) = some v)
            ∧ (∀ k, List.lookup k new = none →
                List.lookup k (overwriteDict new old) = List.lookup k old)) := by
  constructor
  · intro h
    subst h
    rfl
  · intro h
    refine ⟨?_, ?_, ?_⟩
    · rw [overwriteDict_eq_entrywise new old h, List.map_map]
      rfl
    · intro k w v hold hnew
      rw [lookup_overwriteDict new old h k, hold]
      simp [hnew]
    · intro k hnew
      rw [lookup_overwriteDict new old h k]
      cases hold : List.lookup k old with
      | none => rfl
      | some w => simp [hnew]

/-- Witness for C9 at concrete dicts: the shared key `"a"` takes the
checkpoint value, the live-only key `"b"` keeps its value, and the key
sequence of the live dict is preserved. -/
theorem overwrite_merge_contract_witness :
    List.lookup "a" (overwriteDict [("a", (10 : ℤ)), ("c", 30)] [("a", 1), ("b", 2)])
        = some 10
      ∧ List.lookup "b" (overwriteDict [("a", (10 : ℤ)), ("c", 30)] [("a", 1), ("b", 2)])
          = List.lookup "b" [("a", (1 : ℤ)), ("b", 2)] := by
  constructor
  · exact ((overwrite_merge_contract [("a", (10 : ℤ)), ("c", 30)]
      [("a", 1), ("b", 2)]).2 (by simp)).2.1 "a" 1 10 (by rfl) (by rfl)
  · exact ((overwrite_merge_contract [("a", (10 : ℤ)), ("c", 30)]
      [("a", 1), ("b", 2)]).2 (by simp)).2.2 "b" (by rfl)

/-! ## Optimizer update loop (`src/src/optimizer.py`, lines 130-154) -/

/-- Does the character list start with the pattern? -/
def listStartsWith : List Char → List Char → Bool
  | [], _ => true
  | _ :: _, [] => false
  | a :: as, b :: bs => a == b && listStartsWith as bs

/-- Is the pattern an infix of the character list? -/
def listHasInfix (pat : List Char) : List Char → Bool
  | [] => pat.isEmpty
  | b :: bs => listStartsWith pat (b :: bs) || listHasInfix pat bs

/-- Python's `"optimizer" in param_name`: substring containment. -/
def containsOptimizer (param_name : String) : Bool :=
  listHasInfix "optimizer".toList param_name.toList

/-- The `update` loop.  `opt_step` stands for the whole per-parameter body
(lines 137-154: the per-parameter naming context and learning rate,
adaptive gradient clipping, Adam, the Shampoo/grafting/weight-decay
branch, and the in-place weight write), a function of the parameter name,
that parameter's own gradient entry, and the mutable store; entries whose
name contains `"optimizer"` are skipped outright (line 135-136). -/
def update {τ σ : Type} (opt_step : String → τ → σ → σ)
    (grads : List (String × τ)) (s : σ) : σ :=
  grads.foldl
    (fun s kv => if containsOptimizer kv.1 then s else opt_step kv.1 kv.2 s) s

/-- C10: Optimizer-state gradients are inert.  `update` skips every
gradient entry whose key contains the substring `"optimizer"` — the entry
feeds no part of the per-parameter body — so for every body `opt_step`,
two gradient mappings with the same keys that agree on every key not
containing `"optimizer"` produce the same final store: the result is
independent of the values stored under `"optimizer"`-keyed gradients. -/
theorem update_optimizer_entries_inert {τ σ : Type}
    (opt_step : String → τ → σ → σ) :
    (∀ (k : String) (g : τ) (rest : List (String × τ)) (s : σ),
        containsOptimizer k = true →
        update opt_step ((k, g) :: rest) s = update opt_step rest s)
      ∧ (∀ (grads1 grads2 : List (String × τ)) (s : σ),
          List.Forall₂
            (fun a b : String × τ =>
              a.1 = b.1 ∧ (containsOptimizer a.1 = false → a.2 = b.2))
            grads1 grads2 →
          update opt_step grads1 s = update opt_step grads2 s) := by
  constructor
  · intro k g rest s hk
    simp [update, hk]
  · intro grads1 grads2 s hall
    induction hall generalizing s with
    | nil => rfl
    | cons hab htail ih =>
        rename_i a b l1 l2
        obtain ⟨hkey, hval⟩ := hab
        show List.foldl _ (if containsOptimizer a.1 then s else opt_step a.1 a.2 s) l1
          = List.foldl _ (if containsOptimizer b.1 then s else opt_step b.1 b.2 s) l2
        cases hc : containsOptimizer a.1 with
        | true =>
            rw [if_pos rfl]
            rw [show containsOptimizer b.1 = true from hkey ▸ hc, if_pos rfl] at *
            exact ih s
        | false =>
            rw [if_neg (by simp)]
            rw [show containsOptimizer b.1 = false from hkey ▸ hc] at *
            rw [if_neg (by simp)]
            rw [hkey, hval hc] at *
            exact ih (opt_step b.1 b.2 s)

/-- Witness for C10 at concrete inputs: two gradient dicts differing only
in the value under the key `"x/optimizer/m"` leave the accumulating body
with the same result, and the skipping clause fires on that key. -/
theorem update_optimizer_entries_inert_witness :
    update (fun _ (g : ℤ) (s : ℤ) => s + g) [("w", 3), ("x/optimizer/m", 5)] 0
        = update (fun _ (g : ℤ) (s : ℤ) => s + g) [("w", 3), ("x/optimizer/m", 9)] 0
      ∧ update (fun _ (g : ℤ) (s : ℤ) => s + g) [("x/optimizer/m", 5)] 7
          = update (fun _ (g : ℤ) (s : ℤ) => s + g) [] 7 := by
  constructor
  · exact (update_optimizer_entries_inert (fun _ (g : ℤ) (s : ℤ) => s + g)).2
      [("w", 3), ("x/optimizer/m", 5)] [("w", 3), ("x/optimizer/m", 9)] 0
      (List.Forall₂.cons ⟨rfl, fun _ => rfl⟩
        (List.Forall₂.cons ⟨rfl, fun hfalse => absurd hfalse (by decide)⟩
          List.Forall₂.nil))
  · exact (update_optimizer_entries_inert (fun _ (g : ℤ) (s : ℤ) => s + g)).1
      "x/optimizer/m" 5 [] 7 (by decide)

/-! ## Parameter store (`src/src/backend.py`)

`get_param` (lines 104-135) resolves the prefixed name in
`ctx.parameters`; an absent name is materialized (dims and learning-rate
scale recorded, an initial value drawn and stored in storage precision), a
present name is returned as stored; either way the returned tensor is cast
to the computation precision.  The numeric initializers
(`stacked_orthogonal_init` / `normal`, lines 122-130) and the dtype cast
`astype` are passed in as functions; the fields the missing
`src/src/context.py` supplies are modelled from the spec. -/

/-- A storage or computation precision tag. -/
abbrev DType : Type := String

/-- The slice of the run context `get_param` touches.  Modelled from the
spec: `src/src/context.py` is not under `src/`, so its `Context` — the
global prefix, the parameter store with its dims/variance side tables, the
pseudorandom key, the computation/storage precisions, and the process-wide
`is_initializing` flag — is reconstructed from the spec's data model
(spec sections 3 and 4.2). -/
structure BackendCtx (π : Type) where
  global_prefix : String
  is_initializing : Bool
  parameters : List (String × π)
  parameter_dims : List (String × List String)
  parameter_variance : List (String × ℚ)
  prng_key : ℕ
  computation_dtype : DType
  storage_dtype : DType

/-- `prefixed_name` (lines 55-56): `add_to_prefix(name, count=False)`
extends the prefix without drawing a counter. -/
def prefixed_name {π : Type} (ctx : BackendCtx π) (name : String) : String :=
  ctx.global_prefix ++ "/" ++ name

/-- `get_param` (lines 104-135).  `astype` models the dtype cast;
`initValue` models the draw of lines 122-130 (`stacked_orthogonal_init` or
`normal`, with `scale`/`std`/`mean` applied), returning the drawn tensor
and the advanced prng key.  The `dtype` argument overrides both
precisions when given (lines 112-117).  Crucially, the creation branch is
guarded only by presence in `ctx.parameters` — `is_initializing` is never
consulted and a missing name is never an error. -/
def get_param {π : Type} (astype : DType → π → π)
    (initValue : BackendCtx π → List String → π × ℕ)
    (ctx : BackendCtx π) (name : String) (str_shape : List String)
    (scale lr_scale : ℚ) (dtype : Option DType) : BackendCtx π × π :=
  let prefix_name := prefixed_name ctx name
  let computation_dtype := dtype.getD ctx.computation_dtype
  let storage_dtype := dtype.getD ctx.storage_dtype
  match List.lookup prefix_name ctx.parameters with
  | some param => (ctx, astype computation_dtype param)
  | none =>
      let drawn := initValue ctx str_shape
      let param := astype storage_dtype drawn.1
      let ctx := { ctx with
        parameter_dims := (prefix_name, str_shape) :: ctx.parameter_dims,
        parameter_variance := (prefix_name, lr_scale * scale) :: ctx.parameter_variance,
        prng_key := drawn.2,
        parameters := (prefix_name, param) :: ctx.parameters }
      (ctx, astype computation_dtype param)

/-- C5 counterexample: the claim says that with `is_initializing = false`
a name absent from the store is a fatal error and no new entry is ever
added, but `get_param` never consults `is_initializing`: on a run-pass
context with an empty store it silently materializes and stores a fresh
parameter and returns it. -/
theorem get_param_creates_on_run_pass :
    (⟨"", false, [], [], [], 0, "f32", "f32"⟩ : BackendCtx ℤ).is_initializing = false
      ∧ (get_param (fun _ v => v) (fun _ _ => (7, 1))
          ⟨"", false, [], [], [], 0, "f32", "f32"⟩ "w" [] 1 1 none).1.parameters
        = [("/w", 7)] := by
  constructor
  · rfl
  · rfl

/-- C5 (amended): Parameter lookup contract.  For a name whose prefixed
form is present in the store, `get_param` returns the context unchanged
(no new entry in any pass) together with the stored tensor cast to the
computation dtype.  For an absent name — in the run pass just as in the
initializing pass, since `is_initializing` is never consulted — it
materializes the parameter, pushing the drawn value (cast to the storage
dtype) into the store along with its dims and learning-rate-scale
metadata, and raises no error. -/
theorem get_param_contract {π : Type} (astype : DType → π → π)
    (initValue : BackendCtx π → List String → π × ℕ)
    (ctx : BackendCtx π) (name : String) (str_shape : List String)
    (scale lr_scale : ℚ) (dtype : Option DType) :
    (∀ p, List.lookup (prefixed_name ctx name) ctx.parameters = some p →
        get_param astype initValue ctx name str_shape scale lr_scale dtype
          = (ctx, astype (dtype.getD ctx.computation_dtype) p))
      ∧ (List.lookup (prefixed_name ctx name) ctx.parameters = none →
          (get_param astype initValue ctx name str_shape scale lr_scale dtype).1.parameters
              = (prefixed_name ctx name,
                  astype (dtype.getD ctx.storage_dtype) (initValue ctx str_shape).1)
                :: ctx.parameters
            ∧ (get_param astype initValue ctx name str_shape scale lr_scale dtype).2
              = astype (dtype.getD ctx.computation_dtype)
                  (astype (dtype.getD ctx.storage_dtype) (initValue ctx str_shape).1)) := by
  constructor
  · intro p hp
    simp only [get_param]
    rw [hp]
  · intro hp
    simp only [get_param]
    rw [hp]
    exact ⟨rfl, rfl⟩

/-- Witness for C5's amended contract at a concrete store: the present
name `"w"` is read back cast to the computation dtype with the context
untouched. -/
theorem get_param_contract_witness :
    get_param (fun d v => if d = "f32" then v else -v) (fun _ _ => ((9 : ℤ), 1))
        ⟨"", false, [("/w", 5)], [], [], 0, "f32", "bf16"⟩ "w" [] 1 1 none
      = (⟨"", false, [("/w", 5)], [], [], 0, "f32", "bf16"⟩, 5) := by
  have h := (get_param_contract (fun d v => if d = "f32" then (v : ℤ) else -v)
      (fun _ _ => ((9 : ℤ), 1)) ⟨"", false, [("/w", 5)], [], [], 0, "f32", "bf16"⟩
      "w" [] 1 1 none).1 5 (by rfl)
  simpa using h

/-! ## Learning-rate schedule (`src/src/optimizer.py`, lines 121-127) -/

/-- The schedule's configuration fields, in exact arithmetic. -/
structure OptimizerCfg where
  learning_rate : ℚ
  warmup_end : ℕ
  exponential_decay : ℚ

/-- `get_current_lr` (lines 121-127).  The step counter is an unsigned
integer, so `jax.nn.relu(step)` on line 126 is `step` itself: the decay
factor is raised to the full step count, not to the steps past warmup. -/
def get_current_lr (opt : OptimizerCfg) (step : ℕ) : ℚ :=
  let lr := opt.learning_rate
  let lr := lr * min (step : ℚ) (opt.warmup_end : ℚ)
  let lr := lr / (opt.warmup_end : ℚ)
  lr * (1 - opt.exponential_decay) ^ step

/-- The schedule as the specification words it (spec 4.4 and the claim):
linear warmup proportional to `step / warmup_end` saturating at 1, with
the decay factor raised only to the number of steps past the end of
warmup, so no exponential decay during warmup. -/
def get_current_lr_specced (opt : OptimizerCfg) (step : ℕ) : ℚ :=
  opt.learning_rate * min (step : ℚ) (opt.warmup_end : ℚ) / (opt.warmup_end : ℚ)
    * (1 - opt.exponential_decay) ^ (step - opt.warmup_end)

/-- C7 counterexample: with `learning_rate = 1`, `warmup_end = 2`,
`exponential_decay = 1/2`, at step 1 (inside warmup) the code yields
`1 * (1/2) * (1/2)^1 = 1/4`, while the claimed schedule — no decay during
warmup — yields `1 * (1/2) * (1/2)^0 = 1/2`. -/
theorem lr_decays_during_warmup :
    get_current_lr ⟨1, 2, 1/2⟩ 1 = 1/4
      ∧ get_current_lr_specced ⟨1, 2, 1/2⟩ 1 = 1/2
      ∧ (1/4 : ℚ) ≠ 1/2 := by
  refine ⟨?_, ?_, by norm_num⟩
  · show (1 : ℚ) * min ((1 : ℕ) : ℚ) ((2 : ℕ) : ℚ) / ((2 : ℕ) : ℚ)
        * (1 - 1/2) ^ (1 : ℕ) = 1/4
    norm_num
  · show (1 : ℚ) * min ((1 : ℕ) : ℚ) ((2 : ℕ) : ℚ) / ((2 : ℕ) : ℚ)
        * (1 - 1/2) ^ ((1 : ℕ) - (2 : ℕ)) = 1/2
    norm_num
/-- C7 (amended): Learning-rate schedule shape.  `get_current_lr` is the
linear warmup factor `min(step, warmup_end) / warmup_end` times the base
learning rate, times the decay factor `(1 - exponential_decay)` raised to
the FULL step count: exponential decay is applied from step 0 onward,
during warmup as well.  Past warmup (with a nonzero warmup plateau) the
warmup factor saturates at 1 and only the decay remains. -/
theorem get_current_lr_shape (opt : OptimizerCfg) (step : ℕ) :
    get_current_lr opt step
        = opt.learning_rate * min (step : ℚ) (opt.warmup_end : ℚ)
            / (opt.warmup_end : ℚ) * (1 - opt.exponential_decay) ^ step
      ∧ (opt.warmup_end ≠ 0 → opt.warmup_end ≤ step →
          get_current_lr opt step
            = opt.learning_rate * (1 - opt.exponential_decay) ^ step) := by
  constructor
  · rfl
  · intro hne hle
    show opt.learning_rate * min (step : ℚ) (opt.warmup_end : ℚ)
        / (opt.warmup_end : ℚ) * (1 - opt.exponential_decay) ^ step = _
    rw [min_eq_right (by exact_mod_cast hle),
      mul_div_assoc, div_self (by exact_mod_cast hne), mul_one]

/-- Witness for C7's amended shape at a concrete configuration past
warmup: at step 3 with warmup plateau 2 the value is `(1/2)^3`. -/
theorem get_current_lr_shape_witness :
    get_current_lr ⟨1, 2, 1/2⟩ 3 = 1 * (1 - 1/2) ^ 3 :=
  (get_current_lr_shape ⟨1, 2, 1/2⟩ 3).2 (by norm_num) (by norm_num)

/-! ## Adaptive gradient clipping (`src/src/optimizer.py`, lines 96-113)

An optimizer tensor is a list of leading-axis slices, each a flattened
list of real entries, so both the global L2 norm and the per-slice L2
norms of `norm`/`clip_norm` are expressible.  `is_stacked` is imported by
`optimizer.py` from `backend.py` but not defined in this snapshot's
files; it is modelled from the spec below. -/

/-- Modelled from the spec: `is_stacked` decides per-slice versus global
norms by a name-substring heuristic — the parameter name carries a
stacking marker (spec 4.4.1 and the design note on stacked-parameter
detection). -/
def is_stacked (param_name : String) : Bool :=
  listHasInfix "stacked".toList param_name.toList

/-- `lax.square` summed over a slice's entries. -/
noncomputable def sumSq (row : List ℝ) : ℝ :=
  (row.map (fun x => x ^ 2)).sum

/-- `norm` (lines 96-102), stacked branch: square elementwise and sum
over every axis but the leading one — one value per slice. -/
noncomputable def norm_stacked (val : List (List ℝ)) : List ℝ :=
  val.map sumSq

/-- `norm`, global branch: square elementwise and sum over all axes. -/
noncomputable def norm_global (val : List (List ℝ)) : ℝ :=
  (val.map sumSq).sum

/-- `clip_norm` (lines 105-106), stacked branch:
`max(sqrt(norm), min_norm)` per slice. -/
noncomputable def clip_norm_stacked (val : List (List ℝ)) (min_norm : ℝ) : List ℝ :=
  (norm_stacked val).map (fun n => max (Real.sqrt n) min_norm)

/-- `clip_norm`, global branch. -/
noncomputable def clip_norm_global (val : List (List ℝ)) (min_norm : ℝ) : ℝ :=
  max (Real.sqrt (norm_global val)) min_norm

/-- `adaptive_gradient_clipping` (lines 109-113): the gradient is scaled
by `min(wgt_norm / grd_norm * gradient_clip, 1)` — computed and broadcast
per leading-axis slice when the parameter name is stacked, globally
otherwise — with the weight norm floored at `1e-3` and the gradient norm
at `ctx.optimizer.epsilon`. -/
noncomputable def adaptive_gradient_clipping (epsilon gradient_clip : ℝ)
    (param_name : String) (w grad : List (List ℝ)) : List (List ℝ) :=
  if is_stacked param_name then
    let grd_norm := clip_norm_stacked grad epsilon
    let wgt_norm := clip_norm_stacked w (1e-3)
    let grad_scale :=
      List.zipWith (fun wn gn => min (wn / gn * gradient_clip) 1) wgt_norm grd_norm
    List.zipWith (fun s row => row.map (fun x => s * x)) grad_scale grad
  else
    let grd_norm := clip_norm_global grad epsilon
    let wgt_norm := clip_norm_global w (1e-3)
    let grad_scale := min (wgt_norm / grd_norm * gradient_clip) 1
    grad.map (fun row => row.map (fun x => grad_scale * x))

/-- A sum of squares is nonnegative. -/
theorem sumSq_nonneg (row : List ℝ) : 0 ≤ sumSq row := by
  refine List.sum_nonneg ?_
  intro x hx
  obtain ⟨y, _, rfl⟩ := List.mem_map.mp hx
  positivity

/-- The global squared norm is nonnegative. -/
theorem norm_global_nonneg (val : List (List ℝ)) : 0 ≤ norm_global val := by
  refine List.sum_nonneg ?_
  intro x hx
  obtain ⟨row, _, rfl⟩ := List.mem_map.mp hx
  exact sumSq_nonneg row

/-- Scaling every entry of a slice scales its squared sum by the square. -/
theorem sumSq_smul (s : ℝ) (row : List ℝ) :
    sumSq (row.map (fun x => s * x)) = s ^ 2 * sumSq row := by
  unfold sumSq
  rw [List.map_map]
  have h1 : ((fun x => x ^ 2) ∘ fun x => s * x) = fun x => s ^ 2 * x ^ 2 := by
    funext x
    simp [mul_pow]
  rw [h1]
  exact List.sum_map_mul_left row (fun x => x ^ 2) (s ^ 2)

/-- Scaling every entry of a tensor scales its global squared norm. -/
theorem norm_global_smul (s : ℝ) (g : List (List ℝ)) :
    norm_global (g.map (fun row => row.map (fun x => s * x)))
      = s ^ 2 * norm_global g := by
  unfold norm_global
  rw [List.map_map]
  have h1 : (sumSq ∘ fun row => row.map (fun x => s * x))
      = fun row => s ^ 2 * sumSq row := by
    funext row
    exact sumSq_smul s row
  rw [h1]
  exact List.sum_map_mul_left g sumSq (s ^ 2)

/-- The L2 norm of a scaled slice. -/
theorem sqrt_sumSq_smul (s : ℝ) (row : List ℝ) :
    Real.sqrt (sumSq (row.map (fun x => s * x)))
      = |s| * Real.sqrt (sumSq row) := by
  rw [sumSq_smul, Real.sqrt_mul (sq_nonneg s), Real.sqrt_sq_eq_abs]

/-- The core scalar bound: the clipping scale times the gradient norm is
at most `gradient_clip` times the weight norm, once the weight-norm floor
is inactive. -/
theorem agc_scale_bound (epsilon gradient_clip sg sw : ℝ) (heps : 0 < epsilon)
    (hclip : 0 ≤ gradient_clip) (hfloor : 1e-3 ≤ Real.sqrt sw) :
    |min (max (Real.sqrt sw) 1e-3 / max (Real.sqrt sg) epsilon * gradient_clip) 1|
        * Real.sqrt sg
      ≤ gradient_clip * Real.sqrt sw := by
  have hG : 0 < max (Real.sqrt sg) epsilon := lt_max_iff.mpr (Or.inr heps)
  have hGne : max (Real.sqrt sg) epsilon ≠ 0 := ne_of_gt hG
  have hnum : 0 ≤ max (Real.sqrt sw) 1e-3 :=
    le_max_iff.mpr (Or.inl (Real.sqrt_nonneg _))
  have h1 : 0 ≤ max (Real.sqrt sw) 1e-3 / max (Real.sqrt sg) epsilon
      * gradient_clip := mul_nonneg (div_nonneg hnum hG.le) hclip
  have hs : 0 ≤ min (max (Real.sqrt sw) 1e-3 / max (Real.sqrt sg) epsilon
      * gradient_clip) 1 := le_min h1 zero_le_one
  have hW : max (Real.sqrt sw) 1e-3 = Real.sqrt sw := max_eq_left hfloor
  calc |min (max (Real.sqrt sw) 1e-3 / max (Real.sqrt sg) epsilon
            * gradient_clip) 1| * Real.sqrt sg
      = min (max (Real.sqrt sw) 1e-3 / max (Real.sqrt sg) epsilon
          * gradient_clip) 1 * Real.sqrt sg := by rw [abs_of_nonneg hs]
    _ ≤ max (Real.sqrt sw) 1e-3 / max (Real.sqrt sg) epsilon * gradient_clip
          * Real.sqrt sg :=
        mul_le_mul_of_nonneg_right (min_le_left _ _) (Real.sqrt_nonneg _)
    _ ≤ max (Real.sqrt sw) 1e-3 / max (Real.sqrt sg) epsilon * gradient_clip
          * max (Real.sqrt sg) epsilon :=
        mul_le_mul_of_nonneg_left (le_max_left _ _) h1
    _ = gradient_clip * max (Real.sqrt sw) 1e-3 := by
        rw [div_mul_eq_mul_div, div_mul_cancel₀ _ hGne, mul_comm]
    _ = gradient_clip * Real.sqrt sw := by rw [hW]

/-- `zipWith` combines entries position by position. -/
theorem get?_zipWith_some {α β γ : Type} (f : α → β → γ) :
    ∀ (l1 : List α) (l2 : List β) (i : ℕ) (a : α) (b : β),
      l1.get? i = some a → l2.get? i = some b →
      (List.zipWith f l1 l2).get? i = some (f a b) := by
  intro l1
  induction l1 with
  | nil => intro l2 i a b h1; simp at h1
  | cons x xs ih =>
      intro l2 i a b h1 h2
      cases l2 with
      | nil => simp at h2
      | cons y ys =>
          cases i with
          | zero =>
              simp only [List.get?] at h1 h2
              cases h1
              cases h2
              rfl
          | succ n =>
              simp only [List.get?] at h1 h2
              exact ih ys n a b h1 h2

/-- C6: Adaptive gradient clipping bound.  For every parameter tensor `w`
and gradient tensor `grad`, the clipped gradient's L2 norm divided by the
weight's L2 norm never exceeds `gradient_clip` — per leading-axis slice
when the parameter name marks the tensor as stacked, globally otherwise —
in exact arithmetic, under the stated epsilon floors: a positive gradient
floor `epsilon`, and the weight floor `1e-3` inactive (the weight norm at
least `1e-3`), with a nonnegative `gradient_clip`. -/
theorem adaptive_gradient_clipping_bound (epsilon gradient_clip : ℝ)
    (heps : 0 < epsilon) (hclip : 0 ≤ gradient_clip) (param_name : String)
    (w grad : List (List ℝ)) :
    (is_stacked param_name = false →
      1e-3 ≤ Real.sqrt (norm_global w) →
      Real.sqrt (norm_global
          (adaptive_gradient_clipping epsilon gradient_clip param_name w grad))
        / Real.sqrt (norm_global w) ≤ gradient_clip)
      ∧ (is_stacked param_name = true →
        ∀ i wr gr res, w.get? i = some wr → grad.get? i = some gr →
          (adaptive_gradient_clipping epsilon gradient_clip param_name w grad).get? i
            = some res →
          1e-3 ≤ Real.sqrt (sumSq wr) →
          Real.sqrt (sumSq res) / Real.sqrt (sumSq wr) ≤ gradient_clip) := by
  constructor
  · intro hst hfloor
    have hpos : 0 < Real.sqrt (norm_global w) :=
      lt_of_lt_of_le (by norm_num) hfloor
    rw [div_le_iff₀ hpos]
    simp only [adaptive_gradient_clipping, clip_norm_global, hst,
      Bool.false_eq_true, if_false]
    rw [norm_global_smul, Real.sqrt_mul (sq_nonneg _), Real.sqrt_sq_eq_abs]
    exact agc_scale_bound epsilon gradient_clip (norm_global grad) (norm_global w)
      heps hclip hfloor
  · intro hst i wr gr res hw hg hres hfloor
    have hpos : 0 < Real.sqrt (sumSq wr) := lt_of_lt_of_le (by norm_num) hfloor
    have hwn : (clip_norm_stacked w (1e-3)).get? i
        = some (max (Real.sqrt (sumSq wr)) 1e-3) := by
      rw [clip_norm_stacked, norm_stacked, List.get?_map, List.get?_map, hw]
      rfl
    have hgn : (clip_norm_stacked grad epsilon).get? i
        = some (max (Real.sqrt (sumSq gr)) epsilon) := by
      rw [clip_norm_stacked, norm_stacked, List.get?_map, List.get?_map, hg]
      rfl
    have hscale : (List.zipWith (fun wn gn => min (wn / gn * gradient_clip) 1)
          (clip_norm_stacked w (1e-3)) (clip_norm_stacked grad epsilon)).get? i
        = some (min (max (Real.sqrt (sumSq wr)) 1e-3
            / max (Real.sqrt (sumSq gr)) epsilon * gradient_clip) 1) :=
      get?_zipWith_some _ _ _ i _ _ hwn hgn
    have hout : (adaptive_gradient_clipping epsilon gradient_clip param_name w grad).get? i
        = some (gr.map (fun x =>
            min (max (Real.sqrt (sumSq wr)) 1e-3
              / max (Real.sqrt (sumSq gr)) epsilon * gradient_clip) 1 * x)) := by
      simp only [adaptive_gradient_clipping, hst, if_true]
      exact get?_zipWith_some _ _ _ i _ _ hscale hg
    have hres2 : res = gr.map (fun x =>
        min (max (Real.sqrt (sumSq wr)) 1e-3
          / max (Real.sqrt (sumSq gr)) epsilon * gradient_clip) 1 * x) := by
      rw [hout] at hres
      exact (Option.some.inj hres).symm
    rw [hres2, div_le_iff₀ hpos, sqrt_sumSq_smul]
    exact agc_scale_bound epsilon gradient_clip (sumSq gr) (sumSq wr)
      heps hclip hfloor

/-- Witness for C6 at a concrete non-stacked input: weight `[[1]]`,
gradient `[[3]]`, `epsilon = 1`, `gradient_clip = 1`. -/
theorem adaptive_gradient_clipping_bound_witness :
    Real.sqrt (norm_global (adaptive_gradient_clipping 1 1 "w" [[1]] [[3]]))
        / Real.sqrt (norm_global [[1]]) ≤ 1 :=
  (adaptive_gradient_clipping_bound 1 1 (by norm_num) (by norm_num)
      "w" [[1]] [[3]]).1 (by decide)
    (by
      rw [show norm_global [[(1 : ℝ)]] = 1 from by
        simp [norm_global, sumSq]]
      rw [Real.sqrt_one]
      norm_num)
